import Mathlib

set_option maxHeartbeats 1000000

/-!
Shallow embedding of `libraries/entropy/client/interfaces/methods.py`
(Entropy package manager client: repository registry, connection cache,
config persistence, resource lock, branch migration hooks, match/mask
engine), together with theorems settling the specification claims.
-/

namespace Entropy

/-! ## Match action classification (`MatchMixin.get_package_action`) -/

/-- Environment abstracting the database queries made by
`get_package_action`: `installedSearch` is the list of installed idpackages
returned by `searchKeySlot(pkgkey, pkgslot)` for the candidate's key/slot;
`candVer` is `getVersioningData` of the candidate; `instVer` of an installed
idpackage; `cmp` is `entropy.tools.entropy_compare_versions` (external
comparator); `candDigest` / `instDigest` are `retrieveDigest` results. -/
structure PkgActionEnv where
  installedSearch : List Nat
  candVer : String × String × Int
  instVer : Nat → String × String × Int
  cmp : (String × String × Int) → (String × String × Int) → Int
  candDigest : String
  instDigest : Nat → String

/-- Embedding of `MatchMixin.get_package_action`. -/
def get_package_action (env : PkgActionEnv) : Int :=
  match env.installedSearch with
  | [] => 1
  | iid :: _ =>
    let pkgcmp := env.cmp env.candVer (env.instVer iid)
    if pkgcmp = 0 then
      if env.instDigest iid ≠ env.candDigest then 2 else 0
    else if pkgcmp > 0 then 2
    else -1

/-- Claim C1: `get_package_action` returns 1 (install) when no installed
package shares the candidate's key/slot; when one does, it returns 0
(reinstall) on equal version/tag/revision and equal digest, 2 (upgrade) on
equal version but differing digest, 2 when the version comparator is
positive, and -1 (downgrade) when negative. -/
theorem get_package_action_cases (env : PkgActionEnv) :
    (env.installedSearch = [] → get_package_action env = 1) ∧
    (∀ iid rest, env.installedSearch = iid :: rest →
      ((env.cmp env.candVer (env.instVer iid) = 0 ∧
          env.instDigest iid = env.candDigest →
          get_package_action env = 0) ∧
       (env.cmp env.candVer (env.instVer iid) = 0 ∧
          env.instDigest iid ≠ env.candDigest →
          get_package_action env = 2) ∧
       (env.cmp env.candVer (env.instVer iid) > 0 →
          get_package_action env = 2) ∧
       (env.cmp env.candVer (env.instVer iid) < 0 →
          get_package_action env = -1))) := by
  constructor
  · intro h
    simp [get_package_action, h]
  · intro iid rest h
    refine ⟨?_, ?_, ?_, ?_⟩
    · rintro ⟨hc, hd⟩
      simp [get_package_action, h, hc, hd]
    · rintro ⟨hc, hd⟩
      simp [get_package_action, h, hc, hd]
    · intro hc
      have h0 : ¬ env.cmp env.candVer (env.instVer iid) = 0 := by omega
      simp [get_package_action, h, h0, hc]
    · intro hc
      have h0 : ¬ env.cmp env.candVer (env.instVer iid) = 0 := by omega
      have h1 : ¬ env.cmp env.candVer (env.instVer iid) > 0 := by omega
      simp [get_package_action, h, h0, h1]

/-- Concrete environment: candidate with no installed key/slot sharer. -/
def pkgActionEnv0 : PkgActionEnv :=
  { installedSearch := []
    candVer := ("1.0", "", 0)
    instVer := fun _ => ("1.0", "", 0)
    cmp := fun _ _ => 0
    candDigest := "d"
    instDigest := fun _ => "d" }

/-- Witness for C1: on a concrete environment with an empty key/slot search
result, the action is 1 (install). -/
theorem get_package_action_cases_witness : get_package_action pkgActionEnv0 = 1 :=
  (get_package_action_cases pkgActionEnv0).1 rfl

/-! ## Resource lock (`MiscMixin.resources_create_lock` and friends) -/

/-- Process-wide lock state: `count` is `MiscMixin.RESOURCES_LOCK_F_COUNT`,
`f_ref` is `MiscMixin.RESOURCES_LOCK_F_REF` (file object identified by a
numeric handle), `os_locked` is whether the `fcntl.flock` exclusive lock is
held, `pidfile` is whether the PID file exists on disk. -/
structure LockState where
  count : Nat
  f_ref : Option Nat
  os_locked : Bool
  pidfile : Bool
deriving DecidableEq

/-- Embedding of `MiscMixin.create_pid_file_lock`: `contended` models the
`IOError` with `EACCES`/`EAGAIN` raised by the non-blocking `flock` when
another process holds the lock.  Opening the PID file with mode `"w"`
creates it before the `flock` attempt. -/
def create_pid_file_lock (s : LockState) (contended : Bool) : LockState × Bool :=
  if s.f_ref.isSome then (s, true)
  else if contended then ({ s with pidfile := true }, false)
  else ({ s with f_ref := some 1, os_locked := true, pidfile := true }, true)

/-- Embedding of `MiscMixin.resources_create_lock`. -/
def resources_create_lock (s : LockState) (contended : Bool) : LockState × Bool :=
  let r := create_pid_file_lock s contended
  if r.2 then ({ r.1 with count := r.1.count + 1 }, true) else (r.1, false)

/-- Embedding of `MiscMixin.resources_remove_lock`. -/
def resources_remove_lock (s : LockState) : LockState :=
  let s1 := if s.count > 0 then { s with count := s.count - 1 } else s
  if s1.count > 0 then s1
  else
    let s2 :=
      match s1.f_ref with
      | some _ => { s1 with os_locked := false, f_ref := none }
      | none => s1
    { s2 with pidfile := false }

/-- `n` successive uncontended `resources_create_lock` calls. -/
def acquireN : Nat → LockState → LockState
  | 0, s => s
  | n + 1, s => acquireN n (resources_create_lock s false).1

/-- `n` successive `resources_remove_lock` calls. -/
def releaseN : Nat → LockState → LockState
  | 0, s => s
  | n + 1, s => releaseN n (resources_remove_lock s)

/-- The initial, fully released lock state. -/
def initialLockState : LockState := ⟨0, none, false, false⟩

theorem acquireN_held (n : Nat) (k : Nat) :
    acquireN n ⟨k + 1, some 1, true, true⟩ = ⟨k + 1 + n, some 1, true, true⟩ := by
  induction n generalizing k with
  | zero => rfl
  | succ m ih =>
    show acquireN m (resources_create_lock ⟨k + 1, some 1, true, true⟩ false).1 = _
    have hstep : (resources_create_lock ⟨k + 1, some 1, true, true⟩ false).1 =
        ⟨k + 2, some 1, true, true⟩ := rfl
    rw [hstep]
    have := ih (k + 1)
    rw [this]
    congr 1
    omega

theorem acquireN_from_zero (n : Nat) :
    acquireN (n + 1) initialLockState = ⟨n + 1, some 1, true, true⟩ := by
  show acquireN n (resources_create_lock initialLockState false).1 = _
  have hstep : (resources_create_lock initialLockState false).1 =
      ⟨1, some 1, true, true⟩ := rfl
  rw [hstep]
  rcases n with _ | m
  · rfl
  · have := acquireN_held (m + 1) 0
    rw [this]
    congr 1
    omega

theorem resources_remove_lock_pos (c : Nat) (hc : 0 < c) :
    resources_remove_lock ⟨c + 1, some 1, true, true⟩ = ⟨c, some 1, true, true⟩ := by
  simp [resources_remove_lock, hc]

theorem releaseN_partial (n : Nat) :
    releaseN n ⟨n + 1, some 1, true, true⟩ = ⟨1, some 1, true, true⟩ := by
  induction n with
  | zero => rfl
  | succ m ih =>
    show releaseN m (resources_remove_lock ⟨m + 1 + 1, some 1, true, true⟩) = _
    rw [resources_remove_lock_pos (m + 1) (by omega)]
    exact ih

theorem releaseN_full (n : Nat) :
    releaseN (n + 1) ⟨n + 1, some 1, true, true⟩ = ⟨0, none, false, false⟩ := by
  induction n with
  | zero => rfl
  | succ m ih =>
    show releaseN (m + 1) (resources_remove_lock ⟨m + 1 + 1, some 1, true, true⟩) = _
    rw [resources_remove_lock_pos (m + 1) (by omega)]
    exact ih

/-- Claim C4: for every `N ≥ 1`, `N` successful acquires followed by `N`
releases leave the resource lock fully released (counter 0, file reference
cleared, OS lock released, PID file removed), while `N` acquires followed by
only `N - 1` releases leave it held (counter positive, OS lock and PID file
intact). -/
theorem resources_lock_reentrancy (N : Nat) (hN : 1 ≤ N) :
    releaseN N (acquireN N initialLockState) = ⟨0, none, false, false⟩ ∧
    ((releaseN (N - 1) (acquireN N initialLockState)).count > 0 ∧
      (releaseN (N - 1) (acquireN N initialLockState)).os_locked = true ∧
      (releaseN (N - 1) (acquireN N initialLockState)).pidfile = true ∧
      (releaseN (N - 1) (acquireN N initialLockState)).f_ref = some 1) := by
  obtain ⟨m, rfl⟩ : ∃ m, N = m + 1 := ⟨N - 1, by omega⟩
  have hacq := acquireN_from_zero m
  have hm : m + 1 - 1 = m := by omega
  rw [hacq, hm, releaseN_full m, releaseN_partial m]
  exact ⟨rfl, Nat.one_pos, rfl, rfl, rfl⟩

/-- Witness for C4 at `N = 2`. -/
theorem resources_lock_reentrancy_witness :
    releaseN 2 (acquireN 2 initialLockState) = ⟨0, none, false, false⟩ ∧
    (releaseN 1 (acquireN 2 initialLockState)).count > 0 :=
  ⟨(resources_lock_reentrancy 2 (by decide)).1,
   (resources_lock_reentrancy 2 (by decide)).2.1⟩

/-! ## Connection cache (`close_all_repositories`, `remove_repository`) -/

/-- A connection cache key `(repoid, systemroot)`
(`RepositoryMixin.__get_repository_cache_key`). -/
abbrev RepoKey := String × String

/-- Handle-level state of the repository mixin: `repodb_cache` is
`self._repodb_cache` (key to database handle), `memory_db_instances` is
`self._memory_db_instances`, `openh` tells whether a handle (identified by a
numeric id) is currently open, `sys_settings_loaded` stands for the
`SystemSettings` cache content (`false` after `SystemSettings.clear()`) and
`can_run_sys_set_hooks` is `self._can_run_sys_set_hooks`.  The registry
tables rewritten by the rest of `remove_repository` are not needed by the
handle claims and are left out. -/
structure ReposState where
  repodb_cache : List (RepoKey × Nat)
  memory_db_instances : List (RepoKey × Nat)
  openh : Nat → Bool
  sys_settings_loaded : Bool
  can_run_sys_set_hooks : Bool

/-- Whether a cache key is an in-memory repository key
(`item in self._memory_db_instances`). -/
def memKey (mem : List (RepoKey × Nat)) (k : RepoKey) : Bool :=
  mem.any (fun mv => mv.1 = k)

/-- The closing loop of `close_all_repositories`: every cached handle whose
key is not an in-memory key is popped and closed (`closeDB`; a close error
is swallowed and does not abort the loop). -/
def closeCacheFold (mem : List (RepoKey × Nat)) :
    List (RepoKey × Nat) → (Nat → Bool) → Nat → Bool
  | [], f => f
  | cv :: rest, f =>
    if memKey mem cv.1 then closeCacheFold mem rest f
    else closeCacheFold mem rest (fun h => if h = cv.2 then false else f h)

/-- Embedding of `RepositoryMixin.close_all_repositories`.  The hook flag is
set to `False` around the optional `SystemSettings.clear()` and then restored
to its saved old value, so its net value is unchanged and the net effect on
the settings cache is a clear exactly when `mask_clear` holds. -/
def close_all_repositories (s : ReposState) (mask_clear : Bool) : ReposState :=
  { s with
    repodb_cache := []
    openh := closeCacheFold s.memory_db_instances s.repodb_cache s.openh
    sys_settings_loaded := if mask_clear then false else s.sys_settings_loaded }

/-- Embedding of the handle-level effects of
`RepositoryMixin.remove_repository`: both `close_all_repositories` calls and
the pop-and-`closeDB` of the in-memory instance
(`self._memory_db_instances.pop(repo_mem_key, None)` followed by
`mem_inst.closeDB()` when an instance was found). -/
def remove_repository (s : ReposState) (repoid sysroot : String) : ReposState :=
  let s1 := close_all_repositories s true
  let mem_inst := s1.memory_db_instances.find? (fun kv => kv.1 = (repoid, sysroot))
  let s2 : ReposState :=
    { s1 with
      memory_db_instances :=
        s1.memory_db_instances.filter (fun x => ¬ x.1 = (repoid, sysroot))
      openh := fun h =>
        match mem_inst with
        | some kv => if h = kv.2 then false else s1.openh h
        | none => s1.openh h }
  close_all_repositories s2 true

theorem closeCacheFold_of_untouched (mem : List (RepoKey × Nat))
    (l : List (RepoKey × Nat)) (f : Nat → Bool) (h : Nat)
    (hl : ∀ cv ∈ l, memKey mem cv.1 = false → cv.2 ≠ h) :
    closeCacheFold mem l f h = f h := by
  induction l generalizing f with
  | nil => rfl
  | cons cv rest ih =>
    by_cases hk : memKey mem cv.1 = true
    · simp only [closeCacheFold, hk, if_true]
      exact ih f (fun x hx => hl x (List.mem_cons_of_mem cv hx))
    · have hk' : memKey mem cv.1 = false := by
        cases hb : memKey mem cv.1
        · rfl
        · exact absurd hb hk
      simp only [closeCacheFold, hk', Bool.false_eq_true, if_false]
      rw [ih _ (fun x hx => hl x (List.mem_cons_of_mem cv hx))]
      have hne : cv.2 ≠ h := hl cv (List.mem_cons_self cv rest) hk'
      simp [Ne.symm hne]

theorem closeCacheFold_false (mem : List (RepoKey × Nat))
    (l : List (RepoKey × Nat)) (f : Nat → Bool) (h : Nat) (hf : f h = false) :
    closeCacheFold mem l f h = false := by
  induction l generalizing f with
  | nil => exact hf
  | cons cv rest ih =>
    by_cases hk : memKey mem cv.1 = true
    · simp only [closeCacheFold, hk, if_true]
      exact ih f hf
    · simp only [closeCacheFold, hk, if_false]
      apply ih
      by_cases hv : h = cv.2 <;> simp [hv, hf]

theorem closeCacheFold_closes (mem : List (RepoKey × Nat))
    (l : List (RepoKey × Nat)) (f : Nat → Bool) (cv : RepoKey × Nat)
    (hin : cv ∈ l) (hk : memKey mem cv.1 = false) :
    closeCacheFold mem l f cv.2 = false := by
  induction l generalizing f with
  | nil => cases hin
  | cons dv rest ih =>
    rcases List.mem_cons.mp hin with rfl | hin'
    · simp only [closeCacheFold, hk, Bool.false_eq_true, if_false]
      exact closeCacheFold_false mem rest _ cv.2 (by simp)
    · by_cases hdk : memKey mem dv.1 = true
      · simp only [closeCacheFold, hdk, if_true]
        exact ih f hin'
      · simp only [closeCacheFold, hdk, if_false]
        exact ih _ hin'

theorem find_key_of_nodup (l : List (RepoKey × Nat)) (key : RepoKey) (hdl : Nat)
    (hnd : (l.map Prod.fst).Nodup) (hin : (key, hdl) ∈ l) :
    l.find? (fun kv => kv.1 = key) = some (key, hdl) := by
  induction l with
  | nil => cases hin
  | cons dv rest ih =>
    rcases List.mem_cons.mp hin with heq | hin'
    · rw [← heq]
      simp [List.find?]
    · have hdv : ¬ dv.1 = key := by
        intro hcontra
        have hkey : key ∈ rest.map Prod.fst :=
          List.mem_map.mpr ⟨(key, hdl), hin', rfl⟩
        have := (List.nodup_cons.mp hnd).1
        rw [hcontra] at this
        exact this hkey
      simp only [List.find?]
      rw [decide_eq_false hdv]
      exact ih (List.nodup_cons.mp hnd).2 hin'

/-- Claim C2: `close_all_repositories` never closes or discards an in-memory
handle — the in-memory instance table is unchanged and every in-memory
handle keeps its openness — while every durable cached handle is closed and
the cache table is emptied; `remove_repository` is the operation that closes
an in-memory handle and removes it from the instance table.  `hwf` states
that a cached entry holding an in-memory handle is cached under an
in-memory key (which is how the code ever caches them), `hnd` that the
in-memory table has no duplicate keys (it is a `dict`). -/
theorem close_all_repositories_spec (s : ReposState) (mask_clear : Bool)
    (repoid sysroot : String) (hdl : Nat)
    (hwf : ∀ cv ∈ s.repodb_cache,
      (∃ mv ∈ s.memory_db_instances, mv.2 = cv.2) →
        memKey s.memory_db_instances cv.1 = true)
    (hnd : (s.memory_db_instances.map Prod.fst).Nodup)
    (hmem : ((repoid, sysroot), hdl) ∈ s.memory_db_instances) :
    ((close_all_repositories s mask_clear).memory_db_instances =
        s.memory_db_instances) ∧
    ((close_all_repositories s mask_clear).repodb_cache = []) ∧
    (∀ mv ∈ s.memory_db_instances,
      (close_all_repositories s mask_clear).openh mv.2 = s.openh mv.2) ∧
    (∀ cv ∈ s.repodb_cache, memKey s.memory_db_instances cv.1 = false →
      (close_all_repositories s mask_clear).openh cv.2 = false) ∧
    ((remove_repository s repoid sysroot).openh hdl = false) ∧
    (∀ kv ∈ (remove_repository s repoid sysroot).memory_db_instances,
      kv.1 ≠ (repoid, sysroot)) := by
  have hfind : (close_all_repositories s true).memory_db_instances.find?
      (fun kv => kv.1 = (repoid, sysroot)) = some ((repoid, sysroot), hdl) :=
    find_key_of_nodup _ _ _ hnd hmem
  refine ⟨rfl, rfl, ?_, ?_, ?_, ?_⟩
  · intro mv hmv
    show closeCacheFold s.memory_db_instances s.repodb_cache s.openh mv.2 = _
    apply closeCacheFold_of_untouched
    intro cv hcv hck
    intro hcontra
    have := hwf cv hcv ⟨mv, hmv, hcontra.symm⟩
    rw [this] at hck
    cases hck
  · intro cv hcv hck
    show closeCacheFold s.memory_db_instances s.repodb_cache s.openh cv.2 = false
    exact closeCacheFold_closes _ _ _ cv hcv hck
  · show (match (close_all_repositories s true).memory_db_instances.find?
          (fun kv => kv.1 = (repoid, sysroot)) with
        | some kv => if hdl = kv.2 then false
            else (close_all_repositories s true).openh hdl
        | none => (close_all_repositories s true).openh hdl) = false
    rw [hfind]
    simp
  · intro kv hkv
    have hkv' : kv ∈ s.memory_db_instances.filter
        (fun x => ¬ x.1 = (repoid, sysroot)) := hkv
    have := (List.mem_filter.mp hkv').2
    simpa using this

/-- Concrete state for the C2 witness: one durable cached handle (id 1), one
in-memory instance (id 2). -/
def reposState0 : ReposState :=
  { repodb_cache := [(("r", "/"), 1)]
    memory_db_instances := [(("m", "/"), 2)]
    openh := fun _ => true
    sys_settings_loaded := true
    can_run_sys_set_hooks := true }

/-- Witness for C2: on `reposState0` the cache-clear keeps the in-memory
handle (id 2) open and closes the durable one (id 1); removing the
in-memory repository closes its handle. -/
theorem close_all_repositories_spec_witness :
    (close_all_repositories reposState0 true).openh 2 = reposState0.openh 2 ∧
    (close_all_repositories reposState0 true).openh 1 = false ∧
    (remove_repository reposState0 "m" "/").openh 2 = false :=
  ⟨(close_all_repositories_spec reposState0 true "m" "/" 2 (by decide) (by decide)
      (by decide)).2.2.1 (("m", "/"), 2) (by decide),
   (close_all_repositories_spec reposState0 true "m" "/" 2 (by decide) (by decide)
      (by decide)).2.2.2.1 (("r", "/"), 1) (by decide) (by decide),
   (close_all_repositories_spec reposState0 true "m" "/" 2 (by decide) (by decide)
      (by decide)).2.2.2.2.1⟩

/-! ## Config persistence (`__save_repository_settings`,
`__write_ordered_repositories_entries`) -/

/-- Whether the first list is an initial segment of the second
(executable model of Python `str.startswith` on the character lists). -/
def hasStart : List Char → List Char → Bool
  | [], _ => true
  | _ :: _, [] => false
  | p :: ps, c :: cs => p == c && hasStart ps cs

/-- Python `s.startswith(p)`. -/
def pyStartsWith (s p : String) : Bool := hasStart p.data s.data

/-- Whether `sep` occurs as a contiguous sublist of `s`. -/
def containsSub (sep : List Char) : List Char → Bool
  | [] => sep.isEmpty
  | c :: cs => hasStart sep (c :: cs) || containsSub sep cs

/-- Python `s.find(sub) != -1`: whether `sub` occurs as a substring. -/
def occursIn (sub s : String) : Bool := containsSub sub.data s.data

/-- Splitting a character list on a separator character
(executable model of Python `str.split` with a one-character separator). -/
def splitChar (sep : Char) : List Char → List (List Char)
  | [] => [[]]
  | c :: cs =>
    let r := splitChar sep cs
    if c == sep then [] :: r
    else
      match r with
      | [] => [[c]]
      | h :: t => (c :: h) :: t

/-- Python `x.split("|")`. -/
def pySplitPipe (s : String) : List String :=
  (splitChar '|' s.data).map (fun l => ⟨l⟩)

/-- Python `x[1:]`. -/
def pyDropOne (s : String) : String := ⟨s.data.drop 1⟩

/-- The repository-line test used by `__write_ordered_repositories_entries`:
starts with `repository|` and has exactly five pipe-delimited fields. -/
def isRepoLine (x : String) : Bool :=
  pyStartsWith x "repository|" && ((pySplitPipe x).length == 5)

/-- Embedding of the content transformation of
`__write_ordered_repositories_entries` (reading the stripped lines, then
writing them to a temporary file that is atomically renamed over the
original). -/
def write_ordered_repositories_entries (content : List String)
    (ordered_repository_list : List String) : List String :=
  let repolines := content.filter isRepoLine
  let content1 := content.filter (fun x => ¬ x ∈ repolines)
  content1 ++
    (ordered_repository_list.map (fun repoid =>
      repolines.filter (fun x => (pySplitPipe x).getD 1 "" == repoid))).flatten

/-- Metadata of a repository as passed to `__save_repository_settings`. -/
structure RepoData where
  repoid : String
  description : String
  plain_packages : List String
  plain_database : String
  dbcformat : String
  service_port : String
  ssl_service_port : String

/-- A commented (disabled) repository line: starts with `#` but not `##` and
contains `repository|`. -/
def isCommentedRepoLine (x : String) : Bool :=
  pyStartsWith x "#" && !(pyStartsWith x "##") && occursIn "repository|" x

/-- Embedding of the content transformation of
`__save_repository_settings` (the early return for `.tbz2` package-file ids
is not modeled; the rewritten lines are written to a temporary file and
atomically renamed over the original). -/
def save_repository_settings (content0 : List String) (repodata : RepoData)
    (remove disable enable : Bool) : List String :=
  let content :=
    if !disable && !enable then
      let c := content0.filter
        (fun x => !(pyStartsWith x ("repository|" ++ repodata.repoid)))
      if remove then
        c.filter (fun x => !(pyStartsWith x "#" && !(pyStartsWith x "##") &&
          occursIn ("repository|" ++ repodata.repoid) x))
      else c
    else content0
  if remove then content
  else
    let repolines := content.filter
      (fun x => pyStartsWith x "repository|" || isCommentedRepoLine x)
    let content1 := content.filter (fun x => ¬ x ∈ repolines)
    let repolines5 := repolines.filter (fun x => (pySplitPipe x).length == 5)
    let entries := repolines5.map (fun x =>
      if disable && ((pySplitPipe x).getD 1 "" == repodata.repoid) then
        (if pyStartsWith x "#" then x else "#" ++ x)
      else if enable && ((pySplitPipe x).getD 1 "" == repodata.repoid) &&
          pyStartsWith x "#" then
        pyDropOne x
      else x)
    let entries1 :=
      if !disable && !enable then
        (entries.filter (fun x =>
          !(pyStartsWith x "#" && occursIn ("repository|" ++ repodata.repoid) x))) ++
        ["repository|" ++ repodata.repoid ++ "|" ++ repodata.description ++ "|" ++
          String.intercalate " " repodata.plain_packages ++ "|" ++
          repodata.plain_database ++ "#" ++ repodata.dbcformat ++ "#" ++
          repodata.service_port ++ "," ++ repodata.ssl_service_port]
      else entries
    content1 ++ entries1

/-- Repository metadata used by the C3 counterexample. -/
def repoData0 : RepoData := ⟨"baz", "descr", [], "http://db", "bz2", "80", "443"⟩

/-- Counterexample to C3: the line `repository|foo|bar` starts with
`repository|` but has only three pipe-delimited fields; the enable rewrite
of `__save_repository_settings` collects it among the repository lines by
prefix and then silently drops it when filtering for exactly five fields, so
it does not appear unmodified in the rewritten file (the output is empty). -/
theorem save_repository_settings_drops_malformed :
    ¬ ("repository|foo|bar" ∈
      save_repository_settings ["repository|foo|bar"] repoData0
        false false true) ∧
    save_repository_settings ["repository|foo|bar"] repoData0
        false false true = [] := by
  constructor
  · decide
  · decide

/-- Claim C3 amended: in the reorder rewrite
(`__write_ordered_repositories_entries`) only lines with exactly five
pipe-delimited fields starting with `repository|` are treated as repository
lines, and every other line — including a malformed `repository|` line —
appears in the rewritten file iff it was in the original.  In the
add/enable/disable rewrite (`__save_repository_settings`), however, a line
matched by the repository-line pattern that does not have exactly five
pipe-delimited fields is dropped from the rewritten file rather than passed
through, exhibited here in each of the three modes. -/
theorem repository_lines_passthrough_amended :
    (∀ content ordered x, isRepoLine x = false →
      (x ∈ write_ordered_repositories_entries content ordered ↔ x ∈ content)) ∧
    (save_repository_settings ["repository|foo|bar"] repoData0
        false false true = []) ∧
    (save_repository_settings ["repository|foo|bar"] repoData0
        false true false = []) ∧
    (save_repository_settings ["repository|other|x"] repoData0
        false false false =
      ["repository|baz|descr||http://db#bz2#80,443"]) := by
  refine ⟨?_, by decide, by decide, by decide⟩
  intro content ordered x hx
  unfold write_ordered_repositories_entries
  constructor
  · intro hmem
    rcases List.mem_append.mp hmem with h1 | h2
    · exact (List.mem_filter.mp h1).1
    · exfalso
      rcases List.mem_flatten.mp h2 with ⟨l, hl, hxl⟩
      rcases List.mem_map.mp hl with ⟨repoid, _, rfl⟩
      have hx' := List.mem_filter.mp hxl
      have hx'' := List.mem_filter.mp hx'.1
      rw [hx''.2] at hx
      cases hx
  · intro hmem
    apply List.mem_append.mpr
    left
    apply List.mem_filter.mpr
    refine ⟨hmem, ?_⟩
    simp only [decide_eq_true_eq]
    intro hcontra
    have := (List.mem_filter.mp hcontra).2
    rw [this] at hx
    cases hx

/-- Witness for the amended C3: a non-repository line passes through the
reorder rewrite unmodified. -/
theorem repository_lines_passthrough_amended_witness :
    "# a comment" ∈ write_ordered_repositories_entries ["# a comment"] ["baz"] :=
  (repository_lines_passthrough_amended.1 ["# a comment"] ["baz"]
    "# a comment" (by decide)).mpr (by decide)

/-! ## Branch migration hooks (`run_repositories_post_branch_switch_hooks`,
`run_repository_post_branch_upgrade_hooks`) -/

/-- Modelled from the spec: the branch-migration table kept in the
installed-package database by the external repository engine
(`isBranchMigrationAvailable` / `insertBranchMigration`), mapping a
`(repositoryId, fromBranch, toBranch)` triple to its stored
`(scriptMd5, postUpgradeMd5)` pair. -/
def MigDb := String × String × String → Option (String × String)

/-- Environment of the post-branch-switch hook runner: `repos` is the sorted
id list (`all_repos`), `script_md5` gives the checksum of a repository's
`post_branch_hop_script` when the script file is present and readable
(`entropy.tools.md5sum`), `exit_code` the exit status of running it. -/
structure SwitchEnv where
  repos : List String
  script_md5 : String → Option String
  exit_code : String → Int

/-- The per-repository checksum: the script's md5, or the sentinel `'0'`
when the script is absent or unreadable. -/
def repoMd5 (env : SwitchEnv) (r : String) : String := (env.script_md5 r).getD "0"

/-- Result of a hook-runner call: the updated migration table, the returned
set of repository ids (`hooks_ran`), the log of repositories whose external
script was actually executed, and the returned error boolean. -/
structure SwitchResult where
  db : MigDb
  hooks_ran : List String
  executed : List String
  errors : Bool

/-- The main loop of `run_repositories_post_branch_switch_hooks` over the
repository list, threading the migration table. -/
def runSwitchAux (env : SwitchEnv) (ob nb : String) :
    List String → MigDb → SwitchResult
  | [], db => ⟨db, [], [], false⟩
  | r :: rest, db =>
    let md5 := repoMd5 env r
    let skip :=
      match db (r, ob, nb) with
      | some status => md5 == status.1
      | none => false
    if skip then runSwitchAux env ob nb rest db
    else
      let db1 : MigDb := fun k =>
        if k = (r, ob, nb) then some (md5, "0") else db k
      let res := runSwitchAux env ob nb rest db1
      ⟨res.db, r :: res.hooks_ran,
        (if md5 == "0" then [] else [r]) ++ res.executed,
        ((!(md5 == "0")) && (env.exit_code r != 0)) || res.errors⟩

/-- Embedding of `run_repositories_post_branch_switch_hooks`; `avail` is
whether `self._installed_repository` is available (`None` yields an empty
set and `errors = True`). -/
def run_repositories_post_branch_switch_hooks (avail : Bool) (env : SwitchEnv)
    (old_branch new_branch : String) (db : MigDb) : SwitchResult :=
  if avail then runSwitchAux env old_branch new_branch env.repos db
  else ⟨db, [], [], true⟩

theorem runSwitchAux_db_inv (env : SwitchEnv) (ob nb : String)
    (l : List String) (db : MigDb) (x : String)
    (hx : ∃ p, db (x, ob, nb) = some p ∧ p.1 = repoMd5 env x) :
    ∃ p, (runSwitchAux env ob nb l db).db (x, ob, nb) = some p ∧
      p.1 = repoMd5 env x := by
  induction l generalizing db with
  | nil => exact hx
  | cons r rest ih =>
    by_cases hs : (match db (r, ob, nb) with
        | some status => repoMd5 env r == status.1
        | none => false) = true
    · simp only [runSwitchAux, hs, if_true]
      exact ih db hx
    · simp only [runSwitchAux, hs, if_false]
      apply ih
      by_cases hrx : ((x, ob, nb) : String × String × String) = (r, ob, nb)
      · refine ⟨(repoMd5 env r, "0"), ?_, ?_⟩
        · simp [hrx]
        · have : x = r := congrArg Prod.fst hrx
          rw [this]
      · obtain ⟨p, hp1, hp2⟩ := hx
        exact ⟨p, by simp [hrx, hp1], hp2⟩

theorem runSwitchAux_establishes (env : SwitchEnv) (ob nb : String)
    (l : List String) (db : MigDb) (x : String) (hx : x ∈ l) :
    ∃ p, (runSwitchAux env ob nb l db).db (x, ob, nb) = some p ∧
      p.1 = repoMd5 env x := by
  induction l generalizing db with
  | nil => cases hx
  | cons r rest ih =>
    by_cases hs : (match db (r, ob, nb) with
        | some status => repoMd5 env r == status.1
        | none => false) = true
    · simp only [runSwitchAux, hs, if_true]
      rcases List.mem_cons.mp hx with rfl | hx'
      · apply runSwitchAux_db_inv
        revert hs
        cases hdb : db (x, ob, nb) with
        | none => intro hs; cases hs
        | some status =>
          intro hs
          exact ⟨status, rfl, (beq_iff_eq.mp hs).symm⟩
      · exact ih db hx'
    · simp only [runSwitchAux, hs, if_false]
      rcases List.mem_cons.mp hx with rfl | hx'
      · apply runSwitchAux_db_inv
        exact ⟨(repoMd5 env x, "0"), by simp, rfl⟩
      · exact ih _ hx'

theorem runSwitchAux_all_skip (env : SwitchEnv) (ob nb : String)
    (l : List String) (db : MigDb)
    (h : ∀ x ∈ l, ∃ p, db (x, ob, nb) = some p ∧ p.1 = repoMd5 env x) :
    runSwitchAux env ob nb l db = ⟨db, [], [], false⟩ := by
  induction l with
  | nil => rfl
  | cons r rest ih =>
    obtain ⟨p, hp1, hp2⟩ := h r (List.mem_cons_self r rest)
    have hs : (match db (r, ob, nb) with
        | some status => repoMd5 env r == status.1
        | none => false) = true := by
      rw [hp1]
      exact beq_iff_eq.mpr hp2.symm
    simp only [runSwitchAux, hs, if_true]
    exact ih (fun x hx => h x (List.mem_cons_of_mem r hx))

theorem runSwitchAux_not_executed (env : SwitchEnv) (ob nb : String)
    (l : List String) (db : MigDb) (x : String)
    (hx : ∃ p, db (x, ob, nb) = some p ∧ p.1 = repoMd5 env x) :
    x ∉ (runSwitchAux env ob nb l db).executed := by
  induction l generalizing db with
  | nil => simp [runSwitchAux]
  | cons r rest ih =>
    by_cases hs : (match db (r, ob, nb) with
        | some status => repoMd5 env r == status.1
        | none => false) = true
    · simp only [runSwitchAux, hs, if_true]
      exact ih db hx
    · simp only [runSwitchAux, hs, if_false]
      have hxr : x ≠ r := by
        rintro rfl
        obtain ⟨p, hp1, hp2⟩ := hx
        rw [hp1] at hs
        exact hs (beq_iff_eq.mpr hp2.symm)
      intro hmem
      have harg : ∃ p, (fun k => if k = (r, ob, nb) then some (repoMd5 env r, "0")
          else db k) ((x, ob, nb) : String × String × String) = some p ∧
          p.1 = repoMd5 env x := by
        by_cases hkx : ((x, ob, nb) : String × String × String) = (r, ob, nb)
        · exact absurd (congrArg (fun q => q.1) hkx) hxr
        · obtain ⟨p, hp1, hp2⟩ := hx
          exact ⟨p, by simp [hkx, hp1], hp2⟩
      have hrest : x ∈ (runSwitchAux env ob nb rest
          (fun k => if k = (r, ob, nb) then some (repoMd5 env r, "0")
            else db k)).executed := by
        rcases List.mem_append.mp hmem with h1 | h2
        · exfalso
          by_cases hb : (repoMd5 env r == "0") = true
          · rw [if_pos hb] at h1
            cases h1
          · rw [if_neg hb] at h1
            exact hxr (List.mem_singleton.mp h1)
        · exact h2
      exact ih _ harg hrest

theorem runSwitchAux_executed_count (env : SwitchEnv) (ob nb : String)
    (l : List String) (db : MigDb) (x : String) :
    (runSwitchAux env ob nb l db).executed.count x ≤ 1 := by
  induction l generalizing db with
  | nil => simp [runSwitchAux]
  | cons r rest ih =>
    by_cases hs : (match db (r, ob, nb) with
        | some status => repoMd5 env r == status.1
        | none => false) = true
    · simp only [runSwitchAux, hs, if_true]
      exact ih db
    · simp only [runSwitchAux, hs, Bool.false_eq_true, if_false]
      by_cases hb : (repoMd5 env r == "0") = true
      · rw [if_pos hb, List.nil_append]
        exact ih _
      · rw [if_neg hb, List.singleton_append, List.count_cons]
        by_cases hxr : r = x
        · subst hxr
          have hnot : r ∉ (runSwitchAux env ob nb rest
              (fun k => if k = (r, ob, nb) then some (repoMd5 env r, "0")
                else db k)).executed := by
            apply runSwitchAux_not_executed
            exact ⟨(repoMd5 env r, "0"), by simp, rfl⟩
          rw [List.count_eq_zero.mpr hnot]
          simp
        · have hbeq1 : (r == x) = false := by
            rw [beq_eq_false_iff_ne]
            exact hxr
          have hbeq2 : (x == r) = false := by
            rw [beq_eq_false_iff_ne]
            intro hcontra
            exact hxr hcontra.symm
          have hrec := ih (fun k => if k = (r, ob, nb) then some (repoMd5 env r, "0")
            else db k)
          simp only [hbeq1, hbeq2, Bool.false_eq_true, if_false, Nat.add_zero]
          omega

/-- Claim C5: running the post-branch-switch hooks twice with unchanged
script content and an unchanged branch pair makes the second call a pure
skip — no script execution, no migration-record rewrite, empty returned set
— and each repository's script runs at most once across both calls. -/
theorem post_branch_switch_idempotent (env : SwitchEnv)
    (old_branch new_branch : String) (db0 : MigDb) :
    (run_repositories_post_branch_switch_hooks true env old_branch new_branch
      (run_repositories_post_branch_switch_hooks true env old_branch new_branch
        db0).db) =
      ⟨(run_repositories_post_branch_switch_hooks true env old_branch new_branch
        db0).db, [], [], false⟩ ∧
    (∀ r : String,
      ((run_repositories_post_branch_switch_hooks true env old_branch new_branch
          db0).executed ++
        (run_repositories_post_branch_switch_hooks true env old_branch new_branch
          (run_repositories_post_branch_switch_hooks true env old_branch
            new_branch db0).db).executed).count r ≤ 1) := by
  have hsecond : runSwitchAux env old_branch new_branch env.repos
      (runSwitchAux env old_branch new_branch env.repos db0).db =
      ⟨(runSwitchAux env old_branch new_branch env.repos db0).db, [], [], false⟩ :=
    runSwitchAux_all_skip env old_branch new_branch env.repos _
      (fun x hx => runSwitchAux_establishes env old_branch new_branch
        env.repos db0 x hx)
  constructor
  · exact hsecond
  · intro r
    show ((runSwitchAux env old_branch new_branch env.repos db0).executed ++
      (runSwitchAux env old_branch new_branch env.repos
        (runSwitchAux env old_branch new_branch env.repos db0).db).executed).count
        r ≤ 1
    rw [hsecond]
    simp only [List.append_nil]
    exact runSwitchAux_executed_count env old_branch new_branch env.repos db0 r

/-- Environment of `run_repository_post_branch_upgrade_hooks`:
`enabled_repos` is `self._enabled_repos`, `script_md5` the checksum of a
repository's readable `post_branch_upgrade_script`, `upgrade_data` the
per-repository branch-upgrade rows returned by the installed database's
`retrieveBranchMigration(branch)` — each row is
`(from_branch, post_mig_md5, post_upg_md5)`, listed in the iteration order
of `sorted(repo_upgrade_data)` — and `exit_code` the exit status of running
the script for a given `(repoid, from_branch)`. -/
structure UpgradeEnv where
  enabled_repos : List String
  script_md5 : String → Option String
  upgrade_data : String → Option (List (String × String × String))
  exit_code : String → String → Int

/-- Result of the post-upgrade runner: the returned repository set
(`hooks_ran`), the `(repoid, from_branch)` pairs whose script actually ran,
the `setBranchMigrationPostUpgradeMd5sum` writes, and the error boolean. -/
structure UpgradeResult where
  hooks_ran : List String
  executed : List (String × String)
  writes : List (String × String × String × String)
  errors : Bool

/-- The inner `for from_branch in sorted(repo_upgrade_data)` loop of
`run_repository_post_branch_upgrade_hooks`. -/
def runUpgradeRows (env : UpgradeEnv) (branch : String) (pretend : Bool)
    (repoid md5 : String) : List (String × String × String) → UpgradeResult
  | [] => ⟨[], [], [], false⟩
  | row :: rest =>
    let res := runUpgradeRows env branch pretend repoid md5 rest
    if md5 == row.2.2 then res
    else if pretend then
      ⟨repoid :: res.hooks_ran, res.executed, res.writes, res.errors⟩
    else
      ⟨repoid :: res.hooks_ran, (repoid, row.1) :: res.executed,
        (repoid, row.1, branch, md5) :: res.writes,
        ((env.exit_code repoid row.1 != 0) || res.errors)⟩

/-- The outer loop of `run_repository_post_branch_upgrade_hooks` over
`self._enabled_repos`: a repository with no readable script (sentinel `'0'`)
or no stored upgrade data is skipped completely. -/
def runUpgradeRepos (env : UpgradeEnv) (branch : String) (pretend : Bool) :
    List String → UpgradeResult
  | [] => ⟨[], [], [], false⟩
  | r :: rest =>
    let res := runUpgradeRepos env branch pretend rest
    let md5 := (env.script_md5 r).getD "0"
    if md5 == "0" then res
    else
      match env.upgrade_data r with
      | none => res
      | some rows =>
        let rr := runUpgradeRows env branch pretend r md5 rows
        ⟨rr.hooks_ran ++ res.hooks_ran, rr.executed ++ res.executed,
          rr.writes ++ res.writes, (rr.errors || res.errors)⟩

/-- Embedding of `run_repository_post_branch_upgrade_hooks`; `avail` is
whether `self._installed_repository` is available. -/
def run_repository_post_branch_upgrade_hooks (avail : Bool) (env : UpgradeEnv)
    (branch : String) (pretend : Bool) : UpgradeResult :=
  if avail then runUpgradeRepos env branch pretend env.enabled_repos
  else ⟨[], [], [], true⟩

/-- A repository carrying no hook script at all. -/
def switchEnvNoScript : SwitchEnv := ⟨["r1"], fun _ => none, fun _ => 0⟩

/-- The empty branch-migration table. -/
def emptyMigDb : MigDb := fun _ => none

/-- Counterexample to C6: on a repository with no hook script and no stored
migration record, the post-switch runner returns `{"r1"}` although no script
ran at all (it only refreshed the migration record), and when the installed
database is unavailable it returns `errors = True` although no executed
script exited non-zero — so the returned set is not exactly the set of
repositories whose script ran, and the boolean is not equivalent to "some
executed script exited non-zero". -/
theorem post_branch_switch_hooks_ran_without_script :
    (run_repositories_post_branch_switch_hooks true switchEnvNoScript "a" "b"
        emptyMigDb).hooks_ran = ["r1"] ∧
    (run_repositories_post_branch_switch_hooks true switchEnvNoScript "a" "b"
        emptyMigDb).executed = [] ∧
    (run_repositories_post_branch_switch_hooks false switchEnvNoScript "a" "b"
        emptyMigDb).errors = true ∧
    (run_repositories_post_branch_switch_hooks false switchEnvNoScript "a" "b"
        emptyMigDb).executed = [] :=
  ⟨rfl, rfl, rfl, rfl⟩

theorem runSwitchAux_executed_sub_hooks (env : SwitchEnv) (ob nb : String)
    (l : List String) (db : MigDb) (x : String)
    (hx : x ∈ (runSwitchAux env ob nb l db).executed) :
    x ∈ (runSwitchAux env ob nb l db).hooks_ran := by
  induction l generalizing db with
  | nil => cases hx
  | cons r rest ih =>
    by_cases hs : (match db (r, ob, nb) with
        | some status => repoMd5 env r == status.1
        | none => false) = true
    · simp only [runSwitchAux, hs, if_true] at hx ⊢
      exact ih db hx
    · simp only [runSwitchAux, hs, Bool.false_eq_true, if_false] at hx ⊢
      rcases List.mem_append.mp hx with h1 | h2
      · by_cases hb : (repoMd5 env r == "0") = true
        · rw [if_pos hb] at h1
          cases h1
        · rw [if_neg hb] at h1
          rw [List.mem_singleton.mp h1]
          exact List.mem_cons_self r _
      · exact List.mem_cons_of_mem r (ih _ h2)

theorem runSwitchAux_errors_iff (env : SwitchEnv) (ob nb : String)
    (l : List String) (db : MigDb) :
    (runSwitchAux env ob nb l db).errors = true ↔
      ∃ x ∈ (runSwitchAux env ob nb l db).executed, env.exit_code x ≠ 0 := by
  induction l generalizing db with
  | nil => simp [runSwitchAux]
  | cons r rest ih =>
    by_cases hs : (match db (r, ob, nb) with
        | some status => repoMd5 env r == status.1
        | none => false) = true
    · simp only [runSwitchAux, hs, if_true]
      exact ih db
    · simp only [runSwitchAux, hs, Bool.false_eq_true, if_false]
      by_cases hb : (repoMd5 env r == "0") = true
      · rw [if_pos hb, List.nil_append]
        have hnot : (!(repoMd5 env r == "0")) = false := by
          rw [hb]
          rfl
        rw [hnot]
        simpa using ih _
      · rw [if_neg hb, List.singleton_append]
        have hnot : (!(repoMd5 env r == "0")) = true := by
          cases hmd : (repoMd5 env r == "0")
          · rfl
          · exact absurd hmd hb
        rw [hnot]
        constructor
        · intro h
          rcases Bool.or_eq_true_iff.mp h with h1 | h2
          · refine ⟨r, List.mem_cons_self _ _, ?_⟩
            have := Bool.and_eq_true_iff.mp h1
            simpa using this.2
          · obtain ⟨x, hx1, hx2⟩ := (ih _).mp h2
            exact ⟨x, List.mem_cons_of_mem r hx1, hx2⟩
        · rintro ⟨x, hx1, hx2⟩
          rcases List.mem_cons.mp hx1 with rfl | hx'
          · apply Bool.or_eq_true_iff.mpr
            left
            apply Bool.and_eq_true_iff.mpr
            refine ⟨rfl, ?_⟩
            simpa using hx2
          · apply Bool.or_eq_true_iff.mpr
            right
            exact (ih _).mpr ⟨x, hx', hx2⟩

theorem runUpgradeRows_pretend_executed (env : UpgradeEnv) (branch : String)
    (repoid md5 : String) (rows : List (String × String × String)) :
    (runUpgradeRows env branch true repoid md5 rows).executed = [] ∧
    (runUpgradeRows env branch true repoid md5 rows).errors = false := by
  induction rows with
  | nil => exact ⟨rfl, rfl⟩
  | cons row rest ih =>
    by_cases hm : (md5 == row.2.2) = true
    · simpa only [runUpgradeRows, hm, if_true] using ih
    · simpa only [runUpgradeRows, hm, Bool.false_eq_true, if_false, if_true] using ih

theorem runUpgradeRows_hooks_map (env : UpgradeEnv) (branch : String)
    (repoid md5 : String) (rows : List (String × String × String)) :
    (runUpgradeRows env branch false repoid md5 rows).hooks_ran =
      (runUpgradeRows env branch false repoid md5 rows).executed.map Prod.fst := by
  induction rows with
  | nil => rfl
  | cons row rest ih =>
    by_cases hm : (md5 == row.2.2) = true
    · simpa only [runUpgradeRows, hm, if_true] using ih
    · simp only [runUpgradeRows, hm, Bool.false_eq_true, if_false, List.map_cons]
      rw [ih]

theorem runUpgradeRows_errors_iff (env : UpgradeEnv) (branch : String)
    (pretend : Bool) (repoid md5 : String)
    (rows : List (String × String × String)) :
    (runUpgradeRows env branch pretend repoid md5 rows).errors = true ↔
      ∃ e ∈ (runUpgradeRows env branch pretend repoid md5 rows).executed,
        env.exit_code e.1 e.2 ≠ 0 := by
  induction rows with
  | nil => simp [runUpgradeRows]
  | cons row rest ih =>
    by_cases hm : (md5 == row.2.2) = true
    · simpa only [runUpgradeRows, hm, if_true] using ih
    · cases pretend with
      | true => simpa only [runUpgradeRows, hm, Bool.false_eq_true, if_false,
          if_true] using ih
      | false =>
        simp only [runUpgradeRows, hm, Bool.false_eq_true, if_false]
        constructor
        · intro h
          rcases Bool.or_eq_true_iff.mp h with h1 | h2
          · refine ⟨(repoid, row.1), List.mem_cons_self _ _, ?_⟩
            simpa using h1
          · obtain ⟨e, he1, he2⟩ := ih.mp h2
            exact ⟨e, List.mem_cons_of_mem _ he1, he2⟩
        · rintro ⟨e, he1, he2⟩
          rcases List.mem_cons.mp he1 with rfl | he'
          · apply Bool.or_eq_true_iff.mpr
            left
            simpa using he2
          · exact Bool.or_eq_true_iff.mpr (Or.inr (ih.mpr ⟨e, he', he2⟩))

theorem runUpgradeRepos_pretend_executed (env : UpgradeEnv) (branch : String)
    (l : List String) :
    (runUpgradeRepos env branch true l).executed = [] ∧
    (runUpgradeRepos env branch true l).errors = false := by
  induction l with
  | nil => exact ⟨rfl, rfl⟩
  | cons r rest ih =>
    by_cases hb : (((env.script_md5 r).getD "0") == "0") = true
    · simpa only [runUpgradeRepos, hb, if_true] using ih
    · cases hu : env.upgrade_data r with
      | none => simpa only [runUpgradeRepos, hb, Bool.false_eq_true, if_false,
          hu] using ih
      | some rows =>
        simp only [runUpgradeRepos, hb, Bool.false_eq_true, if_false, hu]
        obtain ⟨h1, h2⟩ := runUpgradeRows_pretend_executed env branch r
          ((env.script_md5 r).getD "0") rows
        rw [h1, h2, List.nil_append, Bool.false_or]
        exact ih

theorem runUpgradeRepos_hooks_map (env : UpgradeEnv) (branch : String)
    (l : List String) :
    (runUpgradeRepos env branch false l).hooks_ran =
      (runUpgradeRepos env branch false l).executed.map Prod.fst := by
  induction l with
  | nil => rfl
  | cons r rest ih =>
    by_cases hb : (((env.script_md5 r).getD "0") == "0") = true
    · simpa only [runUpgradeRepos, hb, if_true] using ih
    · cases hu : env.upgrade_data r with
      | none => simpa only [runUpgradeRepos, hb, Bool.false_eq_true, if_false,
          hu] using ih
      | some rows =>
        simp only [runUpgradeRepos, hb, Bool.false_eq_true, if_false, hu,
          List.map_append]
        rw [ih, runUpgradeRows_hooks_map]

theorem runUpgradeRepos_errors_iff (env : UpgradeEnv) (branch : String)
    (pretend : Bool) (l : List String) :
    (runUpgradeRepos env branch pretend l).errors = true ↔
      ∃ e ∈ (runUpgradeRepos env branch pretend l).executed,
        env.exit_code e.1 e.2 ≠ 0 := by
  induction l with
  | nil => simp [runUpgradeRepos]
  | cons r rest ih =>
    by_cases hb : (((env.script_md5 r).getD "0") == "0") = true
    · simpa only [runUpgradeRepos, hb, if_true] using ih
    · cases hu : env.upgrade_data r with
      | none => simpa only [runUpgradeRepos, hb, Bool.false_eq_true, if_false,
          hu] using ih
      | some rows =>
        simp only [runUpgradeRepos, hb, Bool.false_eq_true, if_false, hu]
        constructor
        · intro h
          rcases Bool.or_eq_true_iff.mp h with h1 | h2
          · obtain ⟨e, he1, he2⟩ := (runUpgradeRows_errors_iff env branch
              pretend r ((env.script_md5 r).getD "0") rows).mp h1
            exact ⟨e, List.mem_append.mpr (Or.inl he1), he2⟩
          · obtain ⟨e, he1, he2⟩ := ih.mp h2
            exact ⟨e, List.mem_append.mpr (Or.inr he1), he2⟩
        · rintro ⟨e, he1, he2⟩
          rcases List.mem_append.mp he1 with h1 | h2
          · exact Bool.or_eq_true_iff.mpr (Or.inl
              ((runUpgradeRows_errors_iff env branch pretend r
                ((env.script_md5 r).getD "0") rows).mpr ⟨e, h1, he2⟩))
          · exact Bool.or_eq_true_iff.mpr (Or.inr (ih.mpr ⟨e, h2, he2⟩))

theorem runUpgradeRows_hooks_pretend_eq (env : UpgradeEnv) (branch : String)
    (repoid md5 : String) (rows : List (String × String × String)) :
    (runUpgradeRows env branch true repoid md5 rows).hooks_ran =
      (runUpgradeRows env branch false repoid md5 rows).hooks_ran := by
  induction rows with
  | nil => rfl
  | cons row rest ih =>
    by_cases hm : (md5 == row.2.2) = true
    · simpa only [runUpgradeRows, hm, if_true] using ih
    · simp only [runUpgradeRows, hm, Bool.false_eq_true, if_false, if_true]
      rw [ih]

theorem runUpgradeRepos_hooks_pretend_eq (env : UpgradeEnv) (branch : String)
    (l : List String) :
    (runUpgradeRepos env branch true l).hooks_ran =
      (runUpgradeRepos env branch false l).hooks_ran := by
  induction l with
  | nil => rfl
  | cons r rest ih =>
    by_cases hb : (((env.script_md5 r).getD "0") == "0") = true
    · simpa only [runUpgradeRepos, hb, if_true] using ih
    · cases hu : env.upgrade_data r with
      | none => simpa only [runUpgradeRepos, hb, Bool.false_eq_true, if_false,
          hu] using ih
      | some rows =>
        simp only [runUpgradeRepos, hb, Bool.false_eq_true, if_false, hu]
        rw [ih, runUpgradeRows_hooks_pretend_eq]

/-- Claim C6 amended: both runners return a repository set and an error
boolean, but (a) the post-switch runner's set contains every repository
whose script ran and possibly additional repositories whose migration record
was merely refreshed (a repository with no script at all), and its boolean
is true iff the installed database was unavailable or some executed script
exited non-zero; (b) the post-upgrade runner's set is exactly the
repositories whose script ran (in pretend mode: would run — the set equals
the non-pretend set while nothing is executed), with the same boolean
convention. -/
theorem hook_runners_return_amended :
    (∀ (env : SwitchEnv) (ob nb : String) (db : MigDb) (avail : Bool),
      (∀ x ∈ (run_repositories_post_branch_switch_hooks avail env ob nb
          db).executed,
        x ∈ (run_repositories_post_branch_switch_hooks avail env ob nb
          db).hooks_ran) ∧
      ((run_repositories_post_branch_switch_hooks avail env ob nb
          db).errors = true ↔
        (avail = false ∨
          ∃ x ∈ (run_repositories_post_branch_switch_hooks avail env ob nb
            db).executed, env.exit_code x ≠ 0))) ∧
    (∀ (env : UpgradeEnv) (branch : String) (avail : Bool),
      ((run_repository_post_branch_upgrade_hooks avail env branch
          true).executed = []) ∧
      ((run_repository_post_branch_upgrade_hooks avail env branch
          true).hooks_ran =
        (run_repository_post_branch_upgrade_hooks avail env branch
          false).hooks_ran) ∧
      ((run_repository_post_branch_upgrade_hooks avail env branch
          false).hooks_ran =
        ((run_repository_post_branch_upgrade_hooks avail env branch
          false).executed.map Prod.fst)) ∧
      (∀ pretend,
        (run_repository_post_branch_upgrade_hooks avail env branch
          pretend).errors = true ↔
        (avail = false ∨
          ∃ e ∈ (run_repository_post_branch_upgrade_hooks avail env branch
            pretend).executed, env.exit_code e.1 e.2 ≠ 0))) := by
  constructor
  · intro env ob nb db avail
    cases avail with
    | false =>
      refine ⟨?_, ?_⟩
      · intro x hx
        cases hx
      · simp [run_repositories_post_branch_switch_hooks]
    | true =>
      refine ⟨?_, ?_⟩
      · intro x hx
        exact runSwitchAux_executed_sub_hooks env ob nb env.repos db x hx
      · rw [show (run_repositories_post_branch_switch_hooks true env ob nb db) =
          runSwitchAux env ob nb env.repos db from rfl]
        rw [runSwitchAux_errors_iff env ob nb env.repos db]
        simp
  · intro env branch avail
    cases avail with
    | false =>
      refine ⟨rfl, rfl, rfl, ?_⟩
      intro pretend
      simp [run_repository_post_branch_upgrade_hooks]
    | true =>
      refine ⟨(runUpgradeRepos_pretend_executed env branch env.enabled_repos).1,
        runUpgradeRepos_hooks_pretend_eq env branch env.enabled_repos,
        runUpgradeRepos_hooks_map env branch env.enabled_repos, ?_⟩
      intro pretend
      rw [show (run_repository_post_branch_upgrade_hooks true env branch pretend) =
        runUpgradeRepos env branch pretend env.enabled_repos from rfl]
      rw [runUpgradeRepos_errors_iff env branch pretend env.enabled_repos]
      simp

/-- A repository whose post-switch script exists and exits non-zero. -/
def switchEnvRun : SwitchEnv := ⟨["r2"], fun _ => some "m", fun _ => 1⟩

/-- Witness for the amended C6: on `switchEnvRun`, the repository whose
script actually ran is in the returned set, and the error boolean is true
since its script exited non-zero. -/
theorem hook_runners_return_amended_witness :
    "r2" ∈ (run_repositories_post_branch_switch_hooks true switchEnvRun "a" "b"
      emptyMigDb).hooks_ran ∧
    (run_repositories_post_branch_switch_hooks true switchEnvRun "a" "b"
      emptyMigDb).errors = true :=
  ⟨(hook_runners_return_amended.1 switchEnvRun "a" "b" emptyMigDb true).1
      "r2" (by decide),
   (hook_runners_return_amended.1 switchEnvRun "a" "b" emptyMigDb true).2.mpr
      (Or.inr ⟨"r2", by decide, by decide⟩)⟩

/-! ## Repository validation (`validate_repositories`,
`load_repository_database`) -/

/-- Outcome of opening and structurally validating one repository:
`ok` (opens and `validateDatabase` passes), `badId` (id not in the settings'
available table, `RepositoryError`), `missingFile` (database file not on
disk yet, `RepositoryError`), `corrupted` (opens but a structural check
raises `OperationalError`/`DatabaseError`/`SystemDatabaseError`). -/
inductive RStatus
  | ok
  | badId
  | missingFile
  | corrupted
deriving DecidableEq

/-- The distinct diagnostics that can be emitted while validating: `badId`
and `notDownloaded` come from `load_repository_database` (guarded by
`self._repo_error_messages_cache`), `notAvailable` and `updateNote` are the
two unavailable-repository warnings of `validate_repositories`, `corrupted`
its corrupted-repository warning. -/
inductive MsgKind
  | badId
  | notDownloaded
  | notAvailable
  | updateNote
  | corrupted
deriving DecidableEq

/-- Environment for `validate_repositories`: the priority-ordered repository
ids (`SystemSettings['repositories']['order']`) and for each id the outcome
of opening/validating its database. -/
structure VEnv where
  order : List String
  status : String → RStatus

/-- The loop of `validate_repositories`: per id, `open_repository` calls
`load_repository_database` which emits its warning (regardless of `quiet`)
when the id is not yet in the error-message cache and then raises
`RepositoryError`; `validate_repositories` itself appends the id to the
enabled list on success, and otherwise emits its own warnings only when
`quiet` is not set.  Returns the emitted messages and the enabled list. -/
def validateAux (env : VEnv) (quiet : Bool) :
    List String → List String → List (String × MsgKind) × List String
  | [], _cache => ([], [])
  | r :: rest, cache =>
    match env.status r with
    | .ok =>
      let res := validateAux env quiet rest cache
      (res.1, r :: res.2)
    | .badId =>
      let lmsg := if r ∈ cache then ([] : List (String × MsgKind))
        else [(r, MsgKind.badId)]
      let cache1 := if r ∈ cache then cache else r :: cache
      let vmsg := if quiet then ([] : List (String × MsgKind))
        else [(r, MsgKind.notAvailable), (r, MsgKind.updateNote)]
      let res := validateAux env quiet rest cache1
      (lmsg ++ vmsg ++ res.1, res.2)
    | .missingFile =>
      let lmsg := if r ∈ cache then ([] : List (String × MsgKind))
        else [(r, MsgKind.notDownloaded)]
      let cache1 := if r ∈ cache then cache else r :: cache
      let vmsg := if quiet then ([] : List (String × MsgKind))
        else [(r, MsgKind.notAvailable), (r, MsgKind.updateNote)]
      let res := validateAux env quiet rest cache1
      (lmsg ++ vmsg ++ res.1, res.2)
    | .corrupted =>
      let vmsg := if quiet then ([] : List (String × MsgKind))
        else [(r, MsgKind.corrupted)]
      let res := validateAux env quiet rest cache
      (vmsg ++ res.1, res.2)

/-- Embedding of `validate_repositories`: the error-message cache is cleared
on entry, the enabled list is rebuilt from scratch. -/
def validate_repositories (env : VEnv) (quiet : Bool) :
    List (String × MsgKind) × List String :=
  validateAux env quiet env.order []

/-- A single repository whose database file is missing. -/
def venvMissing : VEnv := ⟨["r"], fun _ => .missingFile⟩

/-- Counterexample to C7: with `quiet = True` and a repository whose
database has not been downloaded, `validate_repositories` still emits the
`load_repository_database` warning "Repository r hasn't been downloaded
yet." — so it is not the case that no diagnostic is emitted when quiet is
set. -/
theorem validate_repositories_quiet_emits :
    (validate_repositories venvMissing true).1 =
      [("r", MsgKind.notDownloaded)] := rfl

theorem validateAux_enabled (env : VEnv) (quiet : Bool) (l : List String)
    (cache : List String) :
    (validateAux env quiet l cache).2 =
      l.filter (fun r => env.status r == RStatus.ok) := by
  induction l generalizing cache with
  | nil => rfl
  | cons r rest ih =>
    cases hs : env.status r with
    | ok =>
      simp only [validateAux, hs, List.filter_cons]
      rw [ih cache]
      simp [hs]
    | badId =>
      simp only [validateAux, hs, List.filter_cons]
      rw [ih]
      simp [hs]
    | missingFile =>
      simp only [validateAux, hs, List.filter_cons]
      rw [ih]
      simp [hs]
    | corrupted =>
      simp only [validateAux, hs, List.filter_cons]
      rw [ih cache]
      simp [hs]

theorem validateAux_msgs_mem (env : VEnv) (quiet : Bool) (l : List String)
    (cache : List String) (x : String) (k : MsgKind)
    (hmem : (x, k) ∈ (validateAux env quiet l cache).1) :
    x ∈ l ∧ env.status x ≠ .ok ∧
      (k = .corrupted ↔ env.status x = .corrupted) ∧
      (k = .notDownloaded → env.status x = .missingFile) ∧
      (k = .badId → env.status x = .badId) ∧
      (quiet = true → (k = .badId ∨ k = .notDownloaded)) := by
  induction l generalizing cache with
  | nil => cases hmem
  | cons r rest ih =>
    cases hs : env.status r with
    | ok =>
      simp only [validateAux, hs] at hmem
      obtain ⟨h1, h2⟩ := ih cache hmem
      exact ⟨List.mem_cons_of_mem r h1, h2⟩
    | badId =>
      simp only [validateAux, hs] at hmem
      rcases List.mem_append.mp hmem with h0 | hrest
      · rcases List.mem_append.mp h0 with hl | hv
        · have hx : x = r ∧ k = MsgKind.badId := by
            by_cases hc : r ∈ cache
            · rw [if_pos hc] at hl
              cases hl
            · rw [if_neg hc] at hl
              have := List.mem_singleton.mp hl
              exact ⟨congrArg Prod.fst this, congrArg Prod.snd this⟩
          obtain ⟨rfl, rfl⟩ := hx
          refine ⟨List.mem_cons_self _ _, ?_⟩
          simp [hs]
        · have hq : quiet = false := by
            cases quiet
            · rfl
            · rw [if_pos rfl] at hv
              cases hv
          rw [hq, if_neg (by simp)] at hv
          have hx : x = r := by
            rcases List.mem_cons.mp hv with h | h
            · exact congrArg Prod.fst h
            · exact congrArg Prod.fst (List.mem_singleton.mp h)
          have hk : k = MsgKind.notAvailable ∨ k = MsgKind.updateNote := by
            rcases List.mem_cons.mp hv with h | h
            · exact Or.inl (congrArg Prod.snd h)
            · exact Or.inr (congrArg Prod.snd (List.mem_singleton.mp h))
          subst hx
          rcases hk with rfl | rfl <;>
            exact ⟨List.mem_cons_self _ _, by simp [hs, hq]⟩
      · obtain ⟨h1, h2⟩ := ih _ hrest
        exact ⟨List.mem_cons_of_mem r h1, h2⟩
    | missingFile =>
      simp only [validateAux, hs] at hmem
      rcases List.mem_append.mp hmem with h0 | hrest
      · rcases List.mem_append.mp h0 with hl | hv
        · have hx : x = r ∧ k = MsgKind.notDownloaded := by
            by_cases hc : r ∈ cache
            · rw [if_pos hc] at hl
              cases hl
            · rw [if_neg hc] at hl
              have := List.mem_singleton.mp hl
              exact ⟨congrArg Prod.fst this, congrArg Prod.snd this⟩
          obtain ⟨rfl, rfl⟩ := hx
          refine ⟨List.mem_cons_self _ _, ?_⟩
          simp [hs]
        · have hq : quiet = false := by
            cases quiet
            · rfl
            · rw [if_pos rfl] at hv
              cases hv
          rw [hq, if_neg (by simp)] at hv
          have hx : x = r := by
            rcases List.mem_cons.mp hv with h | h
            · exact congrArg Prod.fst h
            · exact congrArg Prod.fst (List.mem_singleton.mp h)
          have hk : k = MsgKind.notAvailable ∨ k = MsgKind.updateNote := by
            rcases List.mem_cons.mp hv with h | h
            · exact Or.inl (congrArg Prod.snd h)
            · exact Or.inr (congrArg Prod.snd (List.mem_singleton.mp h))
          subst hx
          rcases hk with rfl | rfl <;>
            exact ⟨List.mem_cons_self _ _, by simp [hs, hq]⟩
      · obtain ⟨h1, h2⟩ := ih _ hrest
        exact ⟨List.mem_cons_of_mem r h1, h2⟩
    | corrupted =>
      simp only [validateAux, hs] at hmem
      rcases List.mem_append.mp hmem with hv | hrest
      · have hq : quiet = false := by
          cases quiet
          · rfl
          · rw [if_pos rfl] at hv
            cases hv
        rw [hq, if_neg (by simp)] at hv
        have heq := List.mem_singleton.mp hv
        have hx : x = r := congrArg Prod.fst heq
        have hk : k = MsgKind.corrupted := congrArg Prod.snd heq
        subst hx
        subst hk
        exact ⟨List.mem_cons_self _ _, by simp [hs, hq]⟩
      · obtain ⟨h1, h2⟩ := ih cache hrest
        exact ⟨List.mem_cons_of_mem r h1, h2⟩

theorem validateAux_msgs_count (env : VEnv) (quiet : Bool) :
    ∀ (l cache : List String), l.Nodup → ∀ (x : String) (k : MsgKind),
      (validateAux env quiet l cache).1.count (x, k) ≤ 1 := by
  intro l
  induction l with
  | nil =>
    intro cache _ x k
    simp [validateAux]
  | cons r rest ih =>
    intro cache hnd x k
    obtain ⟨hr, hnd'⟩ := List.nodup_cons.mp hnd
    have hz1 : ∀ (κ : MsgKind) (c : List String), x ≠ r →
        ((if r ∈ c then ([] : List (String × MsgKind)) else [(r, κ)]).count
          (x, k)) = 0 := by
      intro κ c hxr
      apply List.count_eq_zero.mpr
      intro hmem
      by_cases hc : r ∈ c
      · rw [if_pos hc] at hmem
        cases hmem
      · rw [if_neg hc] at hmem
        exact hxr (congrArg Prod.fst (List.mem_singleton.mp hmem))
    have hz2 : x ≠ r →
        ((if quiet = true then ([] : List (String × MsgKind))
          else [(r, MsgKind.notAvailable), (r, MsgKind.updateNote)]).count
          (x, k)) = 0 := by
      intro hxr
      apply List.count_eq_zero.mpr
      intro hmem
      cases quiet
      · rw [if_neg (by simp)] at hmem
        rcases List.mem_cons.mp hmem with h | h
        · exact hxr (congrArg Prod.fst h)
        · exact hxr (congrArg Prod.fst (List.mem_singleton.mp h))
      · rw [if_pos rfl] at hmem
        cases hmem
    have hz3 : x ≠ r →
        ((if quiet = true then ([] : List (String × MsgKind))
          else [(r, MsgKind.corrupted)]).count (x, k)) = 0 := by
      intro hxr
      apply List.count_eq_zero.mpr
      intro hmem
      cases quiet
      · rw [if_neg (by simp)] at hmem
        exact hxr (congrArg Prod.fst (List.mem_singleton.mp hmem))
      · rw [if_pos rfl] at hmem
        cases hmem
    have hrest0 : x = r → ∀ c : List String,
        (validateAux env quiet rest c).1.count (x, k) = 0 := by
      rintro rfl c
      apply List.count_eq_zero.mpr
      intro hmem
      exact hr (validateAux_msgs_mem env quiet rest c x k hmem).1
    cases hs : env.status r with
    | ok =>
      simp only [validateAux, hs]
      exact ih cache hnd' x k
    | badId =>
      simp only [validateAux, hs, List.count_append]
      by_cases hxr : x = r
      · rw [hrest0 hxr _]
        subst hxr
        by_cases hc : x ∈ cache <;> cases quiet <;> cases k <;>
          simp [hc, List.count_cons, List.count_nil]
      · rw [hz1 MsgKind.badId cache hxr, hz2 hxr]
        simpa using ih _ hnd' x k
    | missingFile =>
      simp only [validateAux, hs, List.count_append]
      by_cases hxr : x = r
      · rw [hrest0 hxr _]
        subst hxr
        by_cases hc : x ∈ cache <;> cases quiet <;> cases k <;>
          simp [hc, List.count_cons, List.count_nil]
      · rw [hz1 MsgKind.notDownloaded cache hxr, hz2 hxr]
        simpa using ih _ hnd' x k
    | corrupted =>
      simp only [validateAux, hs, List.count_append]
      by_cases hxr : x = r
      · rw [hrest0 hxr _]
        subst hxr
        cases quiet <;> cases k <;>
          simp [List.count_cons, List.count_nil]
      · rw [hz3 hxr]
        simpa using ih _ hnd' x k

/-- Claim C7 amended: every id whose database cannot be opened or fails
structural validation is excluded from the enabled list; the unavailable and
corrupted failure classes produce distinct diagnostics (the corrupted
diagnostic appears exactly for corrupted ids, the not-downloaded and bad-id
warnings only for their unavailable sub-classes); when the priority order
lists each id once, every diagnostic is emitted at most once per id; and
`quiet` suppresses the diagnostics of `validate_repositories` itself, but
the lower-level bad-id / not-yet-downloaded warning emitted inside
`load_repository_database` still appears even when `quiet` is set. -/
theorem validate_repositories_amended :
    (∀ (env : VEnv) (quiet : Bool),
      (validate_repositories env quiet).2 =
        env.order.filter (fun r => env.status r == RStatus.ok)) ∧
    (∀ (env : VEnv) (quiet : Bool) (x : String) (k : MsgKind),
      (x, k) ∈ (validate_repositories env quiet).1 →
        (env.status x ≠ .ok ∧
         (k = .corrupted ↔ env.status x = .corrupted) ∧
         (k = .notDownloaded → env.status x = .missingFile) ∧
         (k = .badId → env.status x = .badId))) ∧
    (∀ (env : VEnv) (quiet : Bool), env.order.Nodup → ∀ (x : String) (k : MsgKind),
      (validate_repositories env quiet).1.count (x, k) ≤ 1) ∧
    (∀ (env : VEnv) (x : String) (k : MsgKind),
      (x, k) ∈ (validate_repositories env true).1 →
        (k = .badId ∨ k = .notDownloaded)) := by
  refine ⟨?_, ?_, ?_, ?_⟩
  · intro env quiet
    exact validateAux_enabled env quiet env.order []
  · intro env quiet x k hmem
    obtain ⟨_, h2, h3, h4, h5, _⟩ :=
      validateAux_msgs_mem env quiet env.order [] x k hmem
    exact ⟨h2, h3, h4, h5⟩
  · intro env quiet hnd x k
    exact validateAux_msgs_count env quiet env.order [] hnd x k
  · intro env x k hmem
    exact (validateAux_msgs_mem env true env.order [] x k hmem).2.2.2.2.2 rfl

/-- Witness for the amended C7 on the concrete missing-file environment. -/
theorem validate_repositories_amended_witness :
    (validate_repositories venvMissing true).1.count
      ("r", MsgKind.notDownloaded) ≤ 1 :=
  validate_repositories_amended.2.2.1 venvMissing true (by decide) "r"
    MsgKind.notDownloaded

/-! ## Package masking (`mask_match`, `unmask_match`, `is_match_masked`) -/

/-- A package match `(idpackage, repositoryId)`. -/
abbrev PkgMatch := Nat × String

/-- Environment of the masking engine: `atom_of` is
`dbconn.retrieveAtom` (the `method='atom'` keyword), `resolve` is
`self.atom_match(keyword, packagesFilter=False)` (`none` when unresolved),
the writability flags model `os.access(file, os.W_OK)` on the mask and
unmask configuration files, and `default_masked` is the masking decision the
validator takes for a match with no user mask/unmask entry (keyword masks
and other non-user categories). -/
structure MaskEnv where
  atom_of : PkgMatch → String
  resolve : String → Option PkgMatch
  mask_writable : Bool
  unmask_writable : Bool
  default_masked : PkgMatch → Bool

/-- Masking state: the persisted mask/unmask keyword files (one keyword per
line) and the live in-memory overlay sets
(`SystemSettings['live_packagemasking']`). -/
structure MaskState where
  mask_file : List String
  unmask_file : List String
  live_mask : List PkgMatch
  live_unmask : List PkgMatch

/-- Whether a persisted keyword line applies to a match: not a comment, not
blank, and resolving to exactly this match. -/
def isKeywordFor (env : MaskEnv) (k : String) (m : PkgMatch) : Bool :=
  !(pyStartsWith k "#") && !(k == "") && (env.resolve k == some m)

/-- Modelled from the spec: the external database handle's
`idpackageValidator`, which is not part of this repository's sources.  The
live overlay supersedes the persisted state when `live` is set; a user
unmask entry overrides a user mask entry; with no user entry the default
masking policy applies. -/
def idpackageValidatorMasked (env : MaskEnv) (s : MaskState) (m : PkgMatch)
    (live : Bool) : Bool :=
  if live && s.live_unmask.contains m then false
  else if live && s.live_mask.contains m then true
  else if s.unmask_file.any (fun k => isKeywordFor env k m) then false
  else if s.mask_file.any (fun k => isKeywordFor env k m) then true
  else env.default_masked m

/-- Embedding of `MatchMixin.is_match_masked`: the validator returns `-1`
exactly when the match is masked. -/
def is_match_masked (env : MaskEnv) (s : MaskState) (m : PkgMatch)
    (live_check : Bool) : Bool :=
  idpackageValidatorMasked env s m live_check

/-- Embedding of `clear_match_mask` / `_clear_match_generic`: with
`dry_run` nothing happens; otherwise the match is dropped from both live
overlay sets and every non-comment non-blank line resolving to the match is
filtered out of each writable file (rewritten through a temporary file). -/
def clear_match_mask (env : MaskEnv) (s : MaskState) (m : PkgMatch)
    (dry_run : Bool) : MaskState :=
  if dry_run then s
  else
    let keepLine := fun (line : String) =>
      if !(pyStartsWith line "#") && !(line == "") then
        !(env.resolve line == some m)
      else true
    { mask_file := if env.mask_writable then s.mask_file.filter keepLine
        else s.mask_file
      unmask_file := if env.unmask_writable then s.unmask_file.filter keepLine
        else s.unmask_file
      live_mask := s.live_mask.filter (fun y => !(y == m))
      live_unmask := s.live_unmask.filter (fun y => !(y == m)) }

/-- Embedding of `_mask_unmask_match_generic` on one keyword file: fails
when the file is not writable; in `dry_run` it reports success without
touching the file; otherwise it appends the keyword. -/
def mask_unmask_file_append (writable : Bool) (lines : List String)
    (keyword : String) (dry_run : Bool) : List String × Bool :=
  if !writable then (lines, false)
  else if dry_run then (lines, true)
  else (lines ++ [keyword], true)

/-- Embedding of `MatchMixin.mask_match` with `method='atom'`: no-op success
when the match is already masked with the live overlay disabled; otherwise
clear prior entries, append the atom keyword to the mask file, and in
`dry_run` update only the live overlay. -/
def mask_match (env : MaskEnv) (s : MaskState) (m : PkgMatch)
    (dry_run : Bool) : MaskState × Bool :=
  if is_match_masked env s m false then (s, true)
  else
    let s1 := clear_match_mask env s m dry_run
    let fr := mask_unmask_file_append env.mask_writable s1.mask_file
      (env.atom_of m) dry_run
    let s2 := { s1 with mask_file := fr.1 }
    if dry_run then
      ({ s2 with
          live_unmask := s2.live_unmask.filter (fun y => !(y == m))
          live_mask := if s2.live_mask.contains m then s2.live_mask
            else m :: s2.live_mask }, fr.2)
    else (s2, fr.2)

/-- Embedding of `MatchMixin.unmask_match` with `method='atom'`,
symmetric to `mask_match`. -/
def unmask_match (env : MaskEnv) (s : MaskState) (m : PkgMatch)
    (dry_run : Bool) : MaskState × Bool :=
  if !(is_match_masked env s m false) then (s, true)
  else
    let s1 := clear_match_mask env s m dry_run
    let fr := mask_unmask_file_append env.unmask_writable s1.unmask_file
      (env.atom_of m) dry_run
    let s2 := { s1 with unmask_file := fr.1 }
    if dry_run then
      ({ s2 with
          live_mask := s2.live_mask.filter (fun y => !(y == m))
          live_unmask := if s2.live_unmask.contains m then s2.live_unmask
            else m :: s2.live_unmask }, fr.2)
    else (s2, fr.2)

theorem mask_match_establishes (env : MaskEnv) (s : MaskState) (m : PkgMatch)
    (hres : env.resolve (env.atom_of m) = some m)
    (hkw1 : pyStartsWith (env.atom_of m) "#" = false)
    (hkw2 : (env.atom_of m == "") = false)
    (hmw : env.mask_writable = true)
    (huw : env.unmask_writable = true)
    (hmask : is_match_masked env s m false = false) :
    is_match_masked env (mask_match env s m false).1 m false = true ∧
    (mask_match env s m false).2 = true := by
  have hkey : isKeywordFor env (env.atom_of m) m = true := by
    simp [isKeywordFor, hres, hkw1, hkw2]
  simp only [mask_match, hmask, Bool.false_eq_true, if_false,
    mask_unmask_file_append, hmw, Bool.not_true, clear_match_mask, huw,
    if_true]
  constructor
  · simp only [is_match_masked, idpackageValidatorMasked, Bool.false_and,
      Bool.false_eq_true, if_false]
    have hunmask : (s.unmask_file.filter (fun line =>
        if !(pyStartsWith line "#") && !(line == "") then
          !(env.resolve line == some m)
        else true)).any (fun k => isKeywordFor env k m) = false := by
      rw [List.any_eq_false]
      intro k hk
      have hkf := (List.mem_filter.mp hk).2
      intro hcontra
      have h1 := Bool.and_eq_true_iff.mp hcontra
      rw [if_pos h1.1] at hkf
      rw [Bool.not_eq_true'] at hkf
      exact Bool.false_ne_true (hkf ▸ h1.2)
    rw [hunmask]
    simp only [Bool.false_eq_true, if_false]
    have hmaskany : ((s.mask_file.filter (fun line =>
        if !(pyStartsWith line "#") && !(line == "") then
          !(env.resolve line == some m)
        else true)) ++ [env.atom_of m]).any (fun k => isKeywordFor env k m)
        = true := by
      rw [List.any_eq_true]
      exact ⟨env.atom_of m, List.mem_append.mpr (Or.inr (List.mem_singleton.mpr
        rfl)), hkey⟩
    rw [hmaskany]
    simp
  · trivial

/-- Claim C8: `mask_match` on an already-masked match (checked with the live
overlay disabled) returns success without any state change, `unmask_match`
on an already-unmasked match likewise, and two consecutive `mask_match`
calls make the second a no-op returning `True`.  The hypotheses say that the
match's atom keyword resolves back to the match, is not comment-shaped or
blank, and that the mask/unmask files are writable. -/
theorem mask_unmask_idempotent (env : MaskEnv) (s : MaskState) (m : PkgMatch)
    (hres : env.resolve (env.atom_of m) = some m)
    (hkw1 : pyStartsWith (env.atom_of m) "#" = false)
    (hkw2 : (env.atom_of m == "") = false)
    (hmw : env.mask_writable = true)
    (huw : env.unmask_writable = true) :
    (is_match_masked env s m false = true → mask_match env s m false = (s, true)) ∧
    (is_match_masked env s m false = false →
      unmask_match env s m false = (s, true)) ∧
    ((mask_match env s m false).2 = true ∧
      mask_match env (mask_match env s m false).1 m false =
        ((mask_match env s m false).1, true)) := by
  refine ⟨?_, ?_, ?_⟩
  · intro h
    simp [mask_match, h]
  · intro h
    simp [unmask_match, h]
  · cases hmask : is_match_masked env s m false with
    | true =>
      have hfirst : mask_match env s m false = (s, true) := by
        simp [mask_match, hmask]
      rw [hfirst]
      refine ⟨rfl, ?_⟩
      simp [mask_match, hmask]
    | false =>
      obtain ⟨h1, h2⟩ := mask_match_establishes env s m hres hkw1 hkw2 hmw
        huw hmask
      refine ⟨h2, ?_⟩
      generalize hX : (mask_match env s m false).1 = X at h1 ⊢
      simp [mask_match, h1]

/-- Concrete masking environment for the C8 witness. -/
def maskEnv0 : MaskEnv :=
  { atom_of := fun _ => "app/pkg"
    resolve := fun k => if k == "app/pkg" then some (1, "repo") else none
    mask_writable := true
    unmask_writable := true
    default_masked := fun _ => false }

/-- The empty masking state. -/
def maskState0 : MaskState := ⟨[], [], [], []⟩

/-- Witness for C8: on the concrete environment, masking an unmasked match
succeeds and an immediately repeated `mask_match` is a no-op success. -/
theorem mask_unmask_idempotent_witness :
    (mask_match maskEnv0 maskState0 (1, "repo") false).2 = true ∧
    mask_match maskEnv0 (mask_match maskEnv0 maskState0 (1, "repo") false).1
        (1, "repo") false =
      ((mask_match maskEnv0 maskState0 (1, "repo") false).1, true) :=
  (mask_unmask_idempotent maskEnv0 maskState0 (1, "repo") (by decide)
    (by decide) (by decide) rfl rfl).2.2

/-! ## Database backup/restore (`backup_database`, `restore_database`) -/

/-- File-system environment of the backup/restore pair: `dirname` and
`basename` are `os.path.dirname` / `os.path.basename`, `access_w` /
`access_r` model `os.access(_, os.W_OK / os.R_OK)`, `isdir` / `isfile` the
`os.path` predicates, `space_ok` is
`entropy.tools.check_required_space(dir, bytes)`, the `compress_ok` /
`uncompress_ok` flags tell whether the bz2 (de)compression call raises, `ts`
is the timestamp produced by `get_ts()`, and `backup_pfx` is
`etpConst['dbbackupprefix']`. -/
structure FsEnv where
  dirname : String → String
  basename : String → String
  access_w : String → Bool
  access_r : String → Bool
  isdir : String → Bool
  isfile : String → Bool
  space_ok : String → Bool
  compress_ok : Bool
  uncompress_ok : Bool
  ts : String
  backup_pfx : String

/-- How a call terminates: a normal Python `return ok, msg`, or an uncaught
`UnboundLocalError` from referencing a local that was never assigned. -/
inductive PyResult
  | ret (ok : Bool) (msg : String)
  | nameError
deriving DecidableEq

/-- `os.path.join` for a relative second component. -/
def ospath_join (a b : String) : String :=
  if pyStartsWith b "/" then b
  else if a == "" then b
  else if (a.data.getLast?).isSome && ((a.data.getLast?).getD ' ' == '/') then
    a ++ b
  else a ++ "/" ++ b

/-- Outcome of `backup_database`: the returned value (or crash), whether
`entropy.tools.compress_file` was invoked, and the archive path it was
invoked on. -/
structure BackupOut where
  result : PyResult
  compressed : Bool
  comp_path : Option String
deriving DecidableEq

/-- Embedding of `MiscMixin.backup_database`.  The caller-supplied
`backup_dir` is overwritten with `os.path.dirname(dbpath)` before any use;
when the preflight check fails with `silent=True`, the `return False, mytxt`
references the never-assigned local `mytxt`. -/
def backup_database (env : FsEnv) (dbpath : String) (backup_dir : Option String)
    (silent : Bool) (compress_level : Int) : BackupOut :=
  let _compress_level :=
    if 1 ≤ compress_level ∧ compress_level ≤ 9 then compress_level else 9
  let backup_dir := env.dirname dbpath
  let backup_dir := if backup_dir == "" then env.dirname dbpath else backup_dir
  let dbname := env.basename dbpath
  if !(env.access_w backup_dir && env.isdir backup_dir && env.isfile dbpath &&
      env.access_r dbpath && env.space_ok backup_dir) then
    if silent then ⟨.nameError, false, none⟩
    else ⟨.ret false ("Cannot backup selected database: " ++ dbpath ++
      ", permission denied"), false, none⟩
  else
    let comp_dbname := env.backup_pfx ++ dbname ++ "." ++ env.ts ++ ".bz2"
    let comp_dbpath := ospath_join backup_dir comp_dbname
    if !env.compress_ok then ⟨.ret false "Unable to compress", true,
      some comp_dbpath⟩
    else ⟨.ret true "All fine", true, some comp_dbpath⟩

/-- Embedding of `MiscMixin.restore_database` (result, and whether
`entropy.tools.uncompress_file` was invoked); it has the same unassigned
`mytxt` reference when the preflight check fails with `silent=True`. -/
def restore_database (env : FsEnv) (backup_path db_destination : String)
    (silent : Bool) : PyResult × Bool :=
  let db_dir := env.dirname db_destination
  if !(env.access_w db_dir && env.isdir db_dir && env.isfile backup_path &&
      env.access_r backup_path && env.space_ok db_dir) then
    if silent then (.nameError, false)
    else (.ret false ("Cannot restore selected backup: " ++
      env.basename backup_path ++ ", permission denied"), false)
  else if !env.uncompress_ok then (.ret false "Unable to unpack", true)
  else (.ret true "All fine", true)

/-- A file system on which every preflight predicate fails. -/
def fsEnvDenied : FsEnv :=
  { dirname := fun _ => "/d"
    basename := fun _ => "db"
    access_w := fun _ => false
    access_r := fun _ => false
    isdir := fun _ => false
    isfile := fun _ => false
    space_ok := fun _ => false
    compress_ok := true
    uncompress_ok := true
    ts := "2010101_01h01m01s"
    backup_pfx := "entropy.backup." }

/-- Claim C9 names a code bug: when the preflight check of
`backup_database` / `restore_database` fails and `silent=True`, the code
executes `return False, mytxt` although `mytxt` was only assigned under
`if not silent:`, raising `UnboundLocalError` instead of returning the
failure reason; no compression or decompression is attempted either way,
and with `silent=False` the documented failure result is returned. -/
theorem backup_restore_silent_preflight_crash :
    backup_database fsEnvDenied "/d/db" none true 9 = ⟨.nameError, false, none⟩ ∧
    restore_database fsEnvDenied "/b.bz2" "/d/db" true = (.nameError, false) ∧
    backup_database fsEnvDenied "/d/db" none false 9 =
      ⟨.ret false "Cannot backup selected database: /d/db, permission denied",
        false, none⟩ ∧
    restore_database fsEnvDenied "/b.bz2" "/d/db" false =
      (.ret false "Cannot restore selected backup: db, permission denied",
        false) :=
  ⟨rfl, rfl, rfl, rfl⟩

/-- Claim C10: the result of `backup_database` does not depend on the
caller-supplied `backup_dir` argument, and whenever compression is invoked
the archive path is the backup file name joined onto `dirname(dbpath)` —
the directory containing the database itself. -/
theorem backup_database_dir_ignored (env : FsEnv) (dbpath : String)
    (bd1 bd2 : Option String) (silent : Bool) (compress_level : Int) :
    backup_database env dbpath bd1 silent compress_level =
      backup_database env dbpath bd2 silent compress_level ∧
    (∀ p, (backup_database env dbpath bd1 silent compress_level).comp_path =
        some p →
      p = ospath_join (env.dirname dbpath)
        (env.backup_pfx ++ env.basename dbpath ++ "." ++ env.ts ++ ".bz2")) := by
  constructor
  · rfl
  · intro p hp
    simp only [backup_database, ite_self] at hp
    split at hp
    · split at hp <;> simp at hp
    · split at hp <;>
        exact (Option.some_inj.mp hp).symm

/-- A file system on which the backup preflight succeeds. -/
def fsEnvOk : FsEnv :=
  { dirname := fun _ => "/d"
    basename := fun _ => "db"
    access_w := fun _ => true
    access_r := fun _ => true
    isdir := fun _ => true
    isfile := fun _ => true
    space_ok := fun _ => true
    compress_ok := true
    uncompress_ok := true
    ts := "2010101_01h01m01s"
    backup_pfx := "entropy.backup." }

/-- Witness for C10: on a concrete call the archive path equals the join of
`dirname(dbpath)` with the backup name, whatever `backup_dir` was passed. -/
theorem backup_database_dir_ignored_witness :
    "/d/entropy.backup.db.2010101_01h01m01s.bz2" =
      ospath_join (fsEnvOk.dirname "/d/db")
        (fsEnvOk.backup_pfx ++ fsEnvOk.basename "/d/db" ++ "." ++ fsEnvOk.ts ++
          ".bz2") :=
  (backup_database_dir_ignored fsEnvOk "/d/db" (some "/elsewhere") none false
    9).2 "/d/entropy.backup.db.2010101_01h01m01s.bz2" (by decide)

end Entropy
